import Mathlib

/-!
Verification of the symbol-based dependency inference engine of `objdeps`
(`src/objdeps.py`).  Libraries are records with a name, the sets of defined
and undefined symbol names, and two derived relations (`dependencies`,
`clients`).  Sets of symbol/library names are modelled as `Finset String`;
the Python loops over set objects are modelled as `List.foldl` over the
registry list, mirroring the statement order of the source.
-/

namespace Objdeps

/-- Mirrors the `_Library` namedtuple of `src/objdeps.py`. -/
structure Library where
  name : String
  defined : Finset String
  undefined : Finset String
  dependencies : Finset String
  clients : Finset String
deriving DecidableEq

/-- Mirrors `_make_library`: the relational fields start empty. -/
def make_library (name : String) (defined undefined : Finset String) : Library :=
  ⟨name, defined, undefined, ∅, ∅⟩

/-- String prefix test, kernel-friendly: `strStartsWith p s` holds when `s`
begins with `p` (the semantics of an anchored `grep` pattern `^p` taken
literally). -/
def strStartsWith (p s : String) : Bool :=
  p.data.isPrefixOf s.data

/-- Mirrors `os.path.basename` for POSIX paths: the part of the path after
the last slash. -/
def basename (p : String) : String :=
  ⟨((p.data.reverse.takeWhile (fun c => c ≠ '/')).reverse)⟩

/-- The noise filter of `_GET_DEFINED_SYMBOLS_CMD` / `_GET_UNDEFINED_SYMBOLS_CMD`:
`grep -v "^\({lib}\|vtable\|std\|boost\|__gnu_cxx\|typeinfo\)"` drops every
line beginning with the library path exactly as passed to `_parse_lib`
(`{lib}` is substituted with the full argument, not its basename), or with
one of the fixed runtime prefixes.  The pattern is modelled literally;
regex metacharacters inside the path are not modelled. -/
def noiseFilter (libpath s : String) : Bool :=
  strStartsWith libpath s || strStartsWith "vtable" s || strStartsWith "std" s ||
    strStartsWith "boost" s || strStartsWith "__gnu_cxx" s || strStartsWith "typeinfo" s

/-- Mirrors `_parse_lib`.  The two external `nm` invocations are represented
by the raw symbol-name lists `definedRaw` / `undefinedRaw` (the collaborator
performs no filtering, per the external-interface contract); the logic that
lives in the repository is the noise filter and the use of `path.basename`
for the record's name. -/
def parse_lib (libpath : String) (definedRaw undefinedRaw : List String) : Library :=
  make_library (basename libpath)
    ((definedRaw.filter (fun s => !noiseFilter libpath s)).toFinset)
    ((undefinedRaw.filter (fun s => !noiseFilter libpath s)).toFinset)

/-- Mirrors `_update_dependencies`: walk the registry; skip the record whose
name equals the target's; when the target's undefined set meets the record's
defined set, add the record's name to the target's dependencies.  The Python
function mutates `target.dependencies` in place; here the updated record is
returned. -/
def update_dependencies (target : Library) (libs : List Library) : Library :=
  { target with
    dependencies :=
      libs.foldl
        (fun deps lib =>
          if target.name = lib.name then deps
          else if (target.undefined ∩ lib.defined).Nonempty then insert lib.name deps
          else deps)
        target.dependencies }

/-- Mirrors `_init_dependencies`.  The in-place Python loop equals this map
because `_update_dependencies` reads only the `name` / `undefined` /
`defined` fields of the other records, which the loop never writes. -/
def init_dependencies (libs : List Library) : List Library :=
  libs.map (fun lib => update_dependencies lib libs)

/-- Mirrors `_update_clients`: walk the registry; skip the record whose name
equals the target's; when the target's name occurs in the record's
dependencies, add the record's name to the target's clients. -/
def update_clients (target : Library) (libs : List Library) : Library :=
  { target with
    clients :=
      libs.foldl
        (fun cs lib =>
          if target.name = lib.name then cs
          else if target.name ∈ lib.dependencies then insert lib.name cs
          else cs)
        target.clients }

/-- Mirrors `_init_clients`; the in-place loop equals this map because
`_update_clients` reads only `name` / `dependencies` of the other records. -/
def init_clients (libs : List Library) : List Library :=
  libs.map (fun lib => update_clients lib libs)

/-- The full resolution sequence of the `--make-db` branch of `_main`:
`_init_dependencies` followed by `_init_clients`. -/
def resolveAll (libs : List Library) : List Library :=
  init_clients (init_dependencies libs)

/-- The record that `resolveAll` produces for the input record `lib`. -/
def resolvedEntry (lib : Library) (libs : List Library) : Library :=
  update_clients (update_dependencies lib libs) (init_dependencies libs)

/-- Mirrors `_find_dependencies_intersection`, including the
`if not deps_intersection` test: the branch keying on emptiness of the
accumulated set, not on whether the loop saw its first client yet. -/
def find_dependencies_intersection (target : Library) (libs : List Library) :
    Nat × Finset String :=
  libs.foldl
    (fun acc lib =>
      if lib.name ∈ target.clients then
        if acc.2 = ∅ then (acc.1 + 1, lib.dependencies)
        else (acc.1 + 1, acc.2 ∩ lib.dependencies)
      else acc)
    (0, (∅ : Finset String))

/-- One derivation pass: the Dependency Resolver or the Client Indexer. -/
inductive Pass
  | deps
  | clients
deriving DecidableEq

/-- Run one derivation pass over a registry. -/
def runPass : Pass → List Library → List Library
  | Pass.deps, libs => init_dependencies libs
  | Pass.clients, libs => init_clients libs

/-- Run a sequence of derivation passes over a registry. -/
def runPasses (ps : List Pass) (libs : List Library) : List Library :=
  ps.foldl (fun acc p => runPass p acc) libs

/-- The set of edge targets `_update_dependencies` adds for `target` over a
registry list: the names of the other records whose defined set meets the
target's undefined set. -/
def depEdges (target : Library) : List Library → Finset String
  | [] => ∅
  | lib :: rest =>
      (if target.name ≠ lib.name ∧ (target.undefined ∩ lib.defined).Nonempty
        then {lib.name} else ∅) ∪ depEdges target rest

/-- The set of client names `_update_clients` adds for `target` over a
registry list: the names of the other records whose dependencies contain the
target's name. -/
def clientEdges (target : Library) : List Library → Finset String
  | [] => ∅
  | lib :: rest =>
      (if target.name ≠ lib.name ∧ target.name ∈ lib.dependencies
        then {lib.name} else ∅) ∪ clientEdges target rest

/-! ### Basic lemmas about the two update passes -/

lemma depEdges_foldl (t : Library) (libs : List Library) (d : Finset String) :
    libs.foldl
      (fun deps lib =>
        if t.name = lib.name then deps
        else if (t.undefined ∩ lib.defined).Nonempty then insert lib.name deps
        else deps) d
      = d ∪ depEdges t libs := by
  induction libs generalizing d with
  | nil => simp [depEdges]
  | cons x xs ih =>
    rw [List.foldl_cons, ih]
    by_cases h1 : t.name = x.name
    · have hc : ¬(t.name ≠ x.name ∧ (t.undefined ∩ x.defined).Nonempty) := fun hc => hc.1 h1
      simp [depEdges, h1, hc]
    · by_cases h2 : (t.undefined ∩ x.defined).Nonempty
      · simp only [depEdges, if_neg h1, if_pos h2, if_pos (And.intro h1 h2)]
        ext a
        simp only [Finset.mem_insert, Finset.mem_union, Finset.mem_singleton]
        tauto
      · simp [depEdges, h1, h2]

lemma update_dependencies_deps (t : Library) (libs : List Library) :
    (update_dependencies t libs).dependencies = t.dependencies ∪ depEdges t libs :=
  depEdges_foldl t libs t.dependencies

lemma clientEdges_foldl (t : Library) (libs : List Library) (d : Finset String) :
    libs.foldl
      (fun cs lib =>
        if t.name = lib.name then cs
        else if t.name ∈ lib.dependencies then insert lib.name cs
        else cs) d
      = d ∪ clientEdges t libs := by
  induction libs generalizing d with
  | nil => simp [clientEdges]
  | cons x xs ih =>
    rw [List.foldl_cons, ih]
    by_cases h1 : t.name = x.name
    · have hc : ¬(t.name ≠ x.name ∧ t.name ∈ x.dependencies) := fun hc => hc.1 h1
      simp [clientEdges, h1, hc]
    · by_cases h2 : t.name ∈ x.dependencies
      · simp only [clientEdges, if_neg h1, if_pos h2, if_pos (And.intro h1 h2)]
        ext a
        simp only [Finset.mem_insert, Finset.mem_union, Finset.mem_singleton]
        tauto
      · simp [clientEdges, h1, h2]

lemma update_clients_clients (t : Library) (libs : List Library) :
    (update_clients t libs).clients = t.clients ∪ clientEdges t libs :=
  clientEdges_foldl t libs t.clients

lemma mem_depEdges (t : Library) (libs : List Library) {s : String} :
    s ∈ depEdges t libs ↔
      ∃ lib ∈ libs, lib.name = s ∧ t.name ≠ lib.name ∧
        (t.undefined ∩ lib.defined).Nonempty := by
  induction libs with
  | nil => simp [depEdges]
  | cons x xs ih =>
    by_cases h : t.name ≠ x.name ∧ (t.undefined ∩ x.defined).Nonempty
    · simp only [depEdges, if_pos h, Finset.mem_union, Finset.mem_singleton, ih,
        List.mem_cons]
      constructor
      · rintro (rfl | ⟨lib, hlib, h1, h2, h3⟩)
        · exact ⟨x, Or.inl rfl, rfl, h.1, h.2⟩
        · exact ⟨lib, Or.inr hlib, h1, h2, h3⟩
      · rintro ⟨lib, (rfl | hlib), h1, h2, h3⟩
        · exact Or.inl h1.symm
        · exact Or.inr ⟨lib, hlib, h1, h2, h3⟩
    · simp only [depEdges, if_neg h, Finset.empty_union, ih, List.mem_cons]
      constructor
      · rintro ⟨lib, hlib, h1, h2, h3⟩
        exact ⟨lib, Or.inr hlib, h1, h2, h3⟩
      · rintro ⟨lib, (rfl | hlib), h1, h2, h3⟩
        · exact absurd ⟨h2, h3⟩ h
        · exact ⟨lib, hlib, h1, h2, h3⟩

lemma mem_clientEdges (t : Library) (libs : List Library) {s : String} :
    s ∈ clientEdges t libs ↔
      ∃ lib ∈ libs, lib.name = s ∧ t.name ≠ lib.name ∧ t.name ∈ lib.dependencies := by
  induction libs with
  | nil => simp [clientEdges]
  | cons x xs ih =>
    by_cases h : t.name ≠ x.name ∧ t.name ∈ x.dependencies
    · simp only [clientEdges, if_pos h, Finset.mem_union, Finset.mem_singleton, ih,
        List.mem_cons]
      constructor
      · rintro (rfl | ⟨lib, hlib, h1, h2, h3⟩)
        · exact ⟨x, Or.inl rfl, rfl, h.1, h.2⟩
        · exact ⟨lib, Or.inr hlib, h1, h2, h3⟩
      · rintro ⟨lib, (rfl | hlib), h1, h2, h3⟩
        · exact Or.inl h1.symm
        · exact Or.inr ⟨lib, hlib, h1, h2, h3⟩
    · simp only [clientEdges, if_neg h, Finset.empty_union, ih, List.mem_cons]
      constructor
      · rintro ⟨lib, hlib, h1, h2, h3⟩
        exact ⟨lib, Or.inr hlib, h1, h2, h3⟩
      · rintro ⟨lib, (rfl | hlib), h1, h2, h3⟩
        · exact absurd ⟨h2, h3⟩ h
        · exact ⟨lib, hlib, h1, h2, h3⟩

lemma mem_init_dependencies {t : Library} {libs : List Library} :
    t ∈ init_dependencies libs ↔ ∃ A ∈ libs, update_dependencies A libs = t := by
  simp [init_dependencies]

lemma mem_init_clients {t : Library} {libs : List Library} :
    t ∈ init_clients libs ↔ ∃ A ∈ libs, update_clients A libs = t := by
  simp [init_clients]

/-- `depEdges` reads only the target's name and undefined set and the
registry records' names and defined sets. -/
lemma depEdges_eq_of_proj (t₁ t₂ : Library) (l₁ l₂ : List Library)
    (hn : t₁.name = t₂.name) (hu : t₁.undefined = t₂.undefined)
    (hl : l₁.map (fun l => (l.name, l.defined)) = l₂.map (fun l => (l.name, l.defined))) :
    depEdges t₁ l₁ = depEdges t₂ l₂ := by
  induction l₁ generalizing l₂ with
  | nil =>
    cases l₂ with
    | nil => rfl
    | cons y ys => simp at hl
  | cons x xs ih =>
    cases l₂ with
    | nil => simp at hl
    | cons y ys =>
      simp only [List.map_cons, List.cons.injEq, Prod.mk.injEq] at hl
      obtain ⟨⟨hxy1, hxy2⟩, htl⟩ := hl
      simp only [depEdges]
      rw [hn, hu, hxy1, hxy2, ih ys htl]

/-- `clientEdges` reads only the target's name and the registry records'
names and dependencies sets. -/
lemma clientEdges_eq_of_proj (t₁ t₂ : Library) (l₁ l₂ : List Library)
    (hn : t₁.name = t₂.name)
    (hl : l₁.map (fun l => (l.name, l.dependencies)) =
      l₂.map (fun l => (l.name, l.dependencies))) :
    clientEdges t₁ l₁ = clientEdges t₂ l₂ := by
  induction l₁ generalizing l₂ with
  | nil =>
    cases l₂ with
    | nil => rfl
    | cons y ys => simp at hl
  | cons x xs ih =>
    cases l₂ with
    | nil => simp at hl
    | cons y ys =>
      simp only [List.map_cons, List.cons.injEq, Prod.mk.injEq] at hl
      obtain ⟨⟨hxy1, hxy2⟩, htl⟩ := hl
      simp only [clientEdges]
      rw [hn, hxy1, hxy2, ih ys htl]

lemma init_dependencies_map_sym (libs : List Library) :
    (init_dependencies libs).map (fun l => (l.name, l.defined)) =
      libs.map (fun l => (l.name, l.defined)) := by
  unfold init_dependencies
  rw [List.map_map]
  rfl

lemma init_clients_map_sym (libs : List Library) :
    (init_clients libs).map (fun l => (l.name, l.defined)) =
      libs.map (fun l => (l.name, l.defined)) := by
  unfold init_clients
  rw [List.map_map]
  rfl

lemma init_clients_map_dep (libs : List Library) :
    (init_clients libs).map (fun l => (l.name, l.dependencies)) =
      libs.map (fun l => (l.name, l.dependencies)) := by
  unfold init_clients
  rw [List.map_map]
  rfl

lemma resolveAll_map_sym (libs : List Library) :
    (resolveAll libs).map (fun l => (l.name, l.defined)) =
      libs.map (fun l => (l.name, l.defined)) := by
  unfold resolveAll
  rw [init_clients_map_sym, init_dependencies_map_sym]

lemma map_name_resolveAll (libs : List Library) :
    (resolveAll libs).map Library.name = libs.map Library.name := by
  unfold resolveAll init_clients init_dependencies
  rw [List.map_map, List.map_map]
  rfl

lemma resolveAll_eq_map (libs : List Library) :
    resolveAll libs = libs.map (fun l => resolvedEntry l libs) := by
  unfold resolveAll resolvedEntry init_clients init_dependencies
  rw [List.map_map]
  rfl

lemma map_id_of_mem {α : Type} {l : List α} {f : α → α} (h : ∀ x ∈ l, f x = x) :
    l.map f = l := by
  induction l with
  | nil => rfl
  | cons x xs ih =>
    rw [List.map_cons, h x (List.mem_cons_self x xs),
      ih (fun y hy => h y (List.mem_cons_of_mem _ hy))]

lemma update_dependencies_eq_update (t : Library) (libs : List Library) :
    update_dependencies t libs =
      { t with dependencies := t.dependencies ∪ depEdges t libs } := by
  unfold update_dependencies
  rw [depEdges_foldl]

lemma update_clients_eq_update (t : Library) (libs : List Library) :
    update_clients t libs =
      { t with clients := t.clients ∪ clientEdges t libs } := by
  unfold update_clients
  rw [clientEdges_foldl]

lemma init_dependencies_eq_self (l : List Library)
    (h : ∀ t ∈ l, depEdges t l ⊆ t.dependencies) : init_dependencies l = l := by
  show l.map _ = l
  apply map_id_of_mem
  intro t ht
  rw [update_dependencies_eq_update t l, Finset.union_eq_left.2 (h t ht)]

lemma init_clients_eq_self (l : List Library)
    (h : ∀ t ∈ l, clientEdges t l ⊆ t.clients) : init_clients l = l := by
  show l.map _ = l
  apply map_id_of_mem
  intro t ht
  rw [update_clients_eq_update t l, Finset.union_eq_left.2 (h t ht)]

/-! ### The first component of `_find_dependencies_intersection` counts clients -/

lemma fdi_fst_aux (t : Library) (libs : List Library) :
    ∀ acc : Nat × Finset String,
      (libs.foldl
        (fun acc lib =>
          if lib.name ∈ t.clients then
            if acc.2 = ∅ then (acc.1 + 1, lib.dependencies)
            else (acc.1 + 1, acc.2 ∩ lib.dependencies)
          else acc) acc).1
        = acc.1 + libs.countP (fun lib => decide (lib.name ∈ t.clients)) := by
  induction libs with
  | nil => intro acc; simp
  | cons x xs ih =>
    intro acc
    rw [List.foldl_cons]
    by_cases hm : x.name ∈ t.clients
    · by_cases he : acc.2 = ∅
      · rw [if_pos hm, if_pos he, ih, List.countP_cons]
        simp [hm]
        omega
      · rw [if_pos hm, if_neg he, ih, List.countP_cons]
        simp [hm]
        omega
    · rw [if_neg hm, ih, List.countP_cons]
      simp [hm]

lemma fdi_fst (t : Library) (libs : List Library) :
    (find_dependencies_intersection t libs).1
      = libs.countP (fun lib => decide (lib.name ∈ t.clients)) := by
  have h := fdi_fst_aux t libs (0, (∅ : Finset String))
  simpa [find_dependencies_intersection] using h

lemma countP_mem_eq_card {ns : List String} {S : Finset String}
    (hnodup : ns.Nodup) (hsub : S ⊆ ns.toFinset) :
    ns.countP (fun n => decide (n ∈ S)) = S.card := by
  rw [List.countP_eq_length_filter]
  have hnd : (ns.filter (fun n => decide (n ∈ S))).Nodup := hnodup.filter _
  rw [← List.toFinset_card_of_nodup hnd, List.toFinset_filter]
  have h1 : Finset.filter (fun x => (decide (x ∈ S)) = true) ns.toFinset
      = ns.toFinset ∩ S := by
    ext a
    simp [Finset.mem_filter, Finset.mem_inter]
  rw [h1, Finset.inter_eq_right.2 hsub]

/-! ### Fixpoint lemmas: the passes are additive, hence stable on their output -/

lemma depEdges_subset_init_dependencies (libs : List Library) :
    ∀ t ∈ init_dependencies libs, depEdges t (init_dependencies libs) ⊆ t.dependencies := by
  intro t ht
  obtain ⟨A, hA, rfl⟩ := mem_init_dependencies.1 ht
  have h1 : depEdges (update_dependencies A libs) (init_dependencies libs)
      = depEdges A libs := by
    apply depEdges_eq_of_proj
    · rfl
    · rfl
    · exact init_dependencies_map_sym libs
  rw [h1, update_dependencies_deps]
  exact Finset.subset_union_right

lemma depEdges_subset_resolveAll (libs : List Library) :
    ∀ t ∈ resolveAll libs, depEdges t (resolveAll libs) ⊆ t.dependencies := by
  intro t ht
  rw [resolveAll_eq_map] at ht
  obtain ⟨A, hA, rfl⟩ := List.mem_map.1 ht
  have h1 : depEdges (resolvedEntry A libs) (resolveAll libs) = depEdges A libs := by
    apply depEdges_eq_of_proj
    · rfl
    · rfl
    · exact resolveAll_map_sym libs
  have h2 : (resolvedEntry A libs).dependencies
      = A.dependencies ∪ depEdges A libs := update_dependencies_deps A libs
  rw [h1, h2]
  exact Finset.subset_union_right

lemma clientEdges_subset_resolveAll (libs : List Library) :
    ∀ t ∈ resolveAll libs, clientEdges t (resolveAll libs) ⊆ t.clients := by
  intro t ht
  rw [resolveAll_eq_map] at ht
  obtain ⟨A, hA, rfl⟩ := List.mem_map.1 ht
  have h1 : clientEdges (resolvedEntry A libs) (resolveAll libs)
      = clientEdges (update_dependencies A libs) (init_dependencies libs) := by
    apply clientEdges_eq_of_proj
    · rfl
    · show (resolveAll libs).map _ = _
      unfold resolveAll
      exact init_clients_map_dep (init_dependencies libs)
  have h2 : (resolvedEntry A libs).clients
      = (update_dependencies A libs).clients ∪
        clientEdges (update_dependencies A libs) (init_dependencies libs) :=
    update_clients_clients _ _
  rw [h1, h2]
  exact Finset.subset_union_right

/-! ### Preservation of "no self name" under the passes -/

lemma pass_preserves_no_self (p : Pass) (libs : List Library)
    (hinv : ∀ l ∈ libs, l.name ∉ l.dependencies ∧ l.name ∉ l.clients) :
    ∀ l ∈ runPass p libs, l.name ∉ l.dependencies ∧ l.name ∉ l.clients := by
  intro t ht
  cases p with
  | deps =>
    obtain ⟨A, hA, rfl⟩ := mem_init_dependencies.1 ht
    constructor
    · show A.name ∉ (update_dependencies A libs).dependencies
      rw [update_dependencies_deps]
      intro hmem
      rcases Finset.mem_union.1 hmem with h | h
      · exact (hinv A hA).1 h
      · obtain ⟨lib, _, h1, h2, _⟩ := (mem_depEdges _ _).1 h
        exact h2 h1.symm
    · exact (hinv A hA).2
  | clients =>
    obtain ⟨A, hA, rfl⟩ := mem_init_clients.1 ht
    constructor
    · exact (hinv A hA).1
    · show A.name ∉ (update_clients A libs).clients
      rw [update_clients_clients]
      intro hmem
      rcases Finset.mem_union.1 hmem with h | h
      · exact (hinv A hA).2 h
      · obtain ⟨lib, _, h1, h2, _⟩ := (mem_clientEdges _ _).1 h
        exact h2 h1.symm

lemma runPasses_no_self (ps : List Pass) : ∀ (libs : List Library),
    (∀ l ∈ libs, l.name ∉ l.dependencies ∧ l.name ∉ l.clients) →
    ∀ l ∈ runPasses ps libs, l.name ∉ l.dependencies ∧ l.name ∉ l.clients := by
  induction ps with
  | nil => intro libs hinv; exact hinv
  | cons p ps ih =>
    intro libs hinv
    exact ih (runPass p libs) (pass_preserves_no_self p libs hinv)

/-! ### Concrete registries used by the witnesses and counterexamples -/

/-- The library `X` of the spec's worked example: defines `f`, needs nothing. -/
def libX : Library := ⟨"X", {"f"}, ∅, ∅, ∅⟩

/-- The library `Y` of the spec's worked example: defines nothing, needs `f`. -/
def libY : Library := ⟨"Y", ∅, {"f"}, ∅, ∅⟩

/-- The library `Z` of the spec's worked example: defines nothing, needs `f`. -/
def libZ : Library := ⟨"Z", ∅, {"f"}, ∅, ∅⟩

/-- A fully isolated library: no symbols, no relations. -/
def libT : Library := ⟨"T", ∅, ∅, ∅, ∅⟩

/-- A resolved target whose clients are `c1` and `c2`. -/
def libT2 : Library := ⟨"T", ∅, ∅, ∅, ({"c1", "c2"} : Finset String)⟩

/-- A client with an empty dependencies set. -/
def libC1 : Library := ⟨"c1", ∅, ∅, ∅, ∅⟩

/-- A client whose only dependency is `y`. -/
def libC2 : Library := ⟨"c2", ∅, ∅, {"y"}, ∅⟩

/-- A record carrying a stale dependency edge `B` from an older symbol set. -/
def staleA : Library := ⟨"A", ∅, ∅, {"B"}, ∅⟩

/-- The same record with its dependencies cleared. -/
def freshA : Library := ⟨"A", ∅, ∅, ∅, ∅⟩

/-- One of two same-named records: defines `f`. -/
def libP : Library := ⟨"N", {"f"}, ∅, ∅, ∅⟩

/-- The other same-named record: needs `f`. -/
def libQ : Library := ⟨"N", ∅, {"f"}, ∅, ∅⟩

/-- The record the derivation passes produce for `libY` in `[libX, libY]`. -/
def libYresolved : Library := ⟨"Y", ∅, {"f"}, {"X"}, ∅⟩

/-! ### C1 -/

/-- C1: after the Dependency Resolver runs on a fully-extracted Registry
(unique names, empty `dependencies`), for distinct libraries `A` and `B`,
`B`'s name is in `A`'s dependencies iff `A`'s undefined set meets `B`'s
defined set. -/
theorem dependencies_iff_defines_needed_symbol (libs : List Library)
    (hnodup : (libs.map Library.name).Nodup)
    (hfresh : ∀ l ∈ libs, l.dependencies = ∅)
    (A B : Library) (hA : A ∈ libs) (hB : B ∈ libs) (hAB : A ≠ B) :
    B.name ∈ (update_dependencies A libs).dependencies ↔
      (A.undefined ∩ B.defined).Nonempty := by
  have hname : A.name ≠ B.name := fun h => hAB (List.inj_on_of_nodup_map hnodup hA hB h)
  rw [update_dependencies_deps, hfresh A hA, Finset.empty_union, mem_depEdges]
  constructor
  · rintro ⟨lib, hlib, h1, h2, h3⟩
    have hlb : lib = B := List.inj_on_of_nodup_map hnodup hlib hB h1
    rwa [hlb] at h3
  · intro hint
    exact ⟨B, hB, rfl, hname, hint⟩

/-- C1 witness: in the spec's worked example, `Y` depends on `X` precisely
because `Y.undefined` meets `X.defined`. -/
theorem dependencies_iff_defines_needed_symbol_example :
    libX.name ∈ (update_dependencies libY [libX, libY, libZ]).dependencies ↔
      (libY.undefined ∩ libX.defined).Nonempty :=
  dependencies_iff_defines_needed_symbol [libX, libY, libZ] (by decide) (by decide)
    libY libX (by decide) (by decide) (by decide)

/-! ### C3 -/

/-- C3: after the Dependency Resolver and then the Client Indexer run on a
Registry with unique names and empty `clients`, for distinct libraries `A`
and `B`: `B.name ∈ A.dependencies ⇔ A.name ∈ B.clients`. -/
theorem dependencies_clients_consistency (libs : List Library)
    (hnodup : (libs.map Library.name).Nodup)
    (hfresh : ∀ l ∈ libs, l.clients = ∅)
    (A B : Library) (hA : A ∈ libs) (hB : B ∈ libs) (hAB : A ≠ B) :
    B.name ∈ (resolvedEntry A libs).dependencies ↔
      A.name ∈ (resolvedEntry B libs).clients := by
  have hname : A.name ≠ B.name := fun h => hAB (List.inj_on_of_nodup_map hnodup hA hB h)
  have hdepsA : (resolvedEntry A libs).dependencies
      = (update_dependencies A libs).dependencies := rfl
  have hcl : (resolvedEntry B libs).clients
      = (update_dependencies B libs).clients ∪
        clientEdges (update_dependencies B libs) (init_dependencies libs) :=
    update_clients_clients _ _
  have hclB : (update_dependencies B libs).clients = B.clients := rfl
  rw [hdepsA, hcl, hclB, hfresh B hB, Finset.empty_union, mem_clientEdges]
  constructor
  · intro hmem
    refine ⟨update_dependencies A libs, mem_init_dependencies.2 ⟨A, hA, rfl⟩, rfl, ?_, hmem⟩
    exact fun h => hname h.symm
  · rintro ⟨lib, hlib, h1, h2, h3⟩
    obtain ⟨L, hL, rfl⟩ := mem_init_dependencies.1 hlib
    have hLA : L = A := List.inj_on_of_nodup_map hnodup hL hA h1
    rw [hLA] at h3
    exact h3

/-- C3 witness: in the spec's worked example, `X ∈ Y.dependencies` and
`Y ∈ X.clients` agree. -/
theorem dependencies_clients_consistency_example :
    libX.name ∈ (resolvedEntry libY [libX, libY, libZ]).dependencies ↔
      libY.name ∈ (resolvedEntry libX [libX, libY, libZ]).clients :=
  dependencies_clients_consistency [libX, libY, libZ] (by decide) (by decide)
    libY libX (by decide) (by decide) (by decide)

/-! ### C4 -/

/-- C4: for every library of a Registry in which no record lists its own
name, after any sequence of the derivation passes no record lists its own
name in `dependencies` or `clients`. -/
theorem no_self_edges_after_passes (ps : List Pass) (libs : List Library)
    (hinv : ∀ l ∈ libs, l.name ∉ l.dependencies ∧ l.name ∉ l.clients)
    (l : Library) (hl : l ∈ runPasses ps libs) :
    l.name ∉ l.dependencies ∧ l.name ∉ l.clients :=
  runPasses_no_self ps libs hinv l hl

/-- C4 witness: the entry produced for `Y` after a resolver pass followed by
an indexer pass does not list its own name. -/
theorem no_self_edges_after_passes_example :
    libYresolved.name ∉ libYresolved.dependencies ∧
      libYresolved.name ∉ libYresolved.clients :=
  no_self_edges_after_passes [Pass.deps, Pass.clients] [libX, libY] (by decide)
    libYresolved (by decide)

/-! ### C5 -/

/-- C5 counterexample: the Dependency Resolver does not clear stale edges.
`staleA` and `freshA` agree on name and on both symbol sets, yet running
`_init_dependencies` keeps the stale edge `B` in the first registry and
produces no edge in the second. -/
theorem resolver_not_clearing_stale_edges :
    (init_dependencies [staleA]).map Library.dependencies ≠
      (init_dependencies [freshA]).map Library.dependencies := by
  decide

/-- C5 amended: the Dependency Resolver is additive — each record's output
dependencies set is its pre-existing set united with the edges derived from
the current defined/undefined sets — so running the pass twice yields the
same `dependencies` sets as running it once, but pre-existing stale edges
are preserved, not cleared; only on a Registry whose `dependencies` start
empty is the output determined solely by the current symbol sets. -/
theorem resolver_additive_and_idempotent (libs : List Library) :
    init_dependencies (init_dependencies libs) = init_dependencies libs ∧
    ∀ t : Library, (update_dependencies t libs).dependencies =
      t.dependencies ∪ depEdges t libs :=
  ⟨init_dependencies_eq_self _ (depEdges_subset_init_dependencies libs),
    fun t => update_dependencies_deps t libs⟩

/-! ### C6 -/

/-- C6: a target with no clients makes the Intersection Analyzer return the
pair `(0, ∅)` (the explicit empty set), for any registry list. -/
theorem no_clients_gives_zero_empty (target : Library) (libs : List Library)
    (h : target.clients = ∅) :
    find_dependencies_intersection target libs = (0, (∅ : Finset String)) := by
  unfold find_dependencies_intersection
  induction libs with
  | nil => rfl
  | cons x xs ih =>
    rw [List.foldl_cons]
    simpa [h] using ih

/-- C6 witness: the clientless library `T` yields `(0, ∅)`. -/
theorem no_clients_gives_zero_empty_example :
    find_dependencies_intersection libT [libX, libY] = (0, (∅ : Finset String)) :=
  no_clients_gives_zero_empty libT [libX, libY] rfl

/-! ### C7 -/

/-- C7: running the Dependency Resolver followed by the Client Indexer twice
produces a registry identical (dependencies and clients included) to the one
produced by running the pair once. -/
theorem resolve_pair_idempotent (libs : List Library) :
    resolveAll (resolveAll libs) = resolveAll libs := by
  have h1 : init_dependencies (resolveAll libs) = resolveAll libs :=
    init_dependencies_eq_self _ (depEdges_subset_resolveAll libs)
  have h2 : init_clients (resolveAll libs) = resolveAll libs :=
    init_clients_eq_self _ (clientEdges_subset_resolveAll libs)
  show init_clients (init_dependencies (resolveAll libs)) = resolveAll libs
  rw [h1, h2]

/-! ### C8 -/

/-- C8: in a fully-resolved Registry (unique names, clients derived by the
passes from initially empty `clients` sets), the client count returned by
the Intersection Analyzer for a resolved target equals the cardinality of
that target's clients set. -/
theorem client_count_eq_card_clients (libs : List Library)
    (hnodup : (libs.map Library.name).Nodup)
    (hfresh : ∀ l ∈ libs, l.clients = ∅)
    (T : Library) (hT : T ∈ libs) :
    (find_dependencies_intersection (resolvedEntry T libs) (resolveAll libs)).1
      = (resolvedEntry T libs).clients.card := by
  rw [fdi_fst]
  have h1 : (resolveAll libs).countP
      (fun lib => decide (lib.name ∈ (resolvedEntry T libs).clients))
      = ((resolveAll libs).map Library.name).countP
        (fun n => decide (n ∈ (resolvedEntry T libs).clients)) := by
    rw [List.countP_map]
    rfl
  have hsub : (resolvedEntry T libs).clients ⊆ (libs.map Library.name).toFinset := by
    intro s hs
    rw [show (resolvedEntry T libs).clients
        = (update_dependencies T libs).clients ∪
          clientEdges (update_dependencies T libs) (init_dependencies libs) from
        update_clients_clients _ _,
      show (update_dependencies T libs).clients = T.clients from rfl,
      hfresh T hT, Finset.empty_union, mem_clientEdges] at hs
    obtain ⟨lib, hlib, h1, _, _⟩ := hs
    rw [List.mem_toFinset, ← h1]
    obtain ⟨L, hL, rfl⟩ := mem_init_dependencies.1 hlib
    exact List.mem_map.2 ⟨L, hL, rfl⟩
  rw [h1, map_name_resolveAll]
  exact countP_mem_eq_card hnodup hsub

/-- C8 witness: in the spec's worked example, the analyzer counts the two
clients `Y` and `Z` of `X`, matching `|X.clients| = 2`. -/
theorem client_count_eq_card_clients_example :
    (find_dependencies_intersection (resolvedEntry libX [libX, libY, libZ])
        (resolveAll [libX, libY, libZ])).1
      = (resolvedEntry libX [libX, libY, libZ]).clients.card :=
  client_count_eq_card_clients [libX, libY, libZ] (by decide) (by decide)
    libX (by decide)

/-! ### C2 -/

/-- C2 (code bug): the Intersection Analyzer does not return the
intersection of all clients' dependencies.  With clients `c1`
(`dependencies = ∅`) and `c2` (`dependencies = {y}`) the true intersection
is `∅`, but the `if not deps_intersection` test mistakes the empty running
intersection for the not-yet-initialized accumulator and resets it to
`c2`'s dependencies, returning `(2, {y})`. -/
theorem intersection_accumulator_reset_bug :
    find_dependencies_intersection libT2 [libC1, libC2] = (2, ({"y"} : Finset String)) ∧
      libC1.dependencies ∩ libC2.dependencies = ∅ ∧
      ({"y"} : Finset String) ≠ ∅ := by
  decide

/-! ### C9 -/

/-- C9 counterexample: a symbol beginning with the library's basename is not
filtered when the library is given with a directory prefix — for the path
`d/a` (basename `a`) the defined symbol `ax` survives extraction. -/
theorem basename_filter_counterexample :
    "ax" ∈ (parse_lib "d/a" ["ax"] []).defined ∧
      strStartsWith (basename "d/a") "ax" = true := by
  decide

/-- C9 amended: the extraction filter keys on the library path exactly as
passed to `_parse_lib` (which equals the basename only when no directory
prefix is given): after extraction no symbol in the defined or undefined set
begins with that path string, nor with `vtable`, `std`, `boost`,
`__gnu_cxx`, or `typeinfo`. -/
theorem filter_uses_given_path (libpath : String) (dRaw uRaw : List String)
    (s : String)
    (hs : s ∈ (parse_lib libpath dRaw uRaw).defined ∨
      s ∈ (parse_lib libpath dRaw uRaw).undefined) :
    noiseFilter libpath s = false := by
  rcases hs with h | h
  · have h' : s ∈ (dRaw.filter (fun x => !noiseFilter libpath x)).toFinset := h
    rw [List.mem_toFinset, List.mem_filter] at h'
    simpa using h'.2
  · have h' : s ∈ (uRaw.filter (fun x => !noiseFilter libpath x)).toFinset := h
    rw [List.mem_toFinset, List.mem_filter] at h'
    simpa using h'.2

/-- C9 witness: the surviving symbol `ax` of the counterexample indeed fails
the grep pattern built from the path `d/a`. -/
theorem filter_uses_given_path_example :
    noiseFilter "d/a" "ax" = false :=
  filter_uses_given_path "d/a" ["ax"] [] "ax" (Or.inl (by decide))

/-! ### C10 -/

/-- C10: two distinct records sharing one name are mutually invisible to the
derivation passes — the name-based self-exclusion applies, so after full
resolution neither lists the other's (equal) name among its dependencies or
clients, whatever the symbol sets. -/
theorem same_name_records_no_edges (libs : List Library) (A B : Library)
    (hA : A ∈ libs) (hB : B ∈ libs) (hAB : A ≠ B) (hname : A.name = B.name)
    (hdep : A.name ∉ A.dependencies) (hcl : A.name ∉ A.clients) :
    B.name ∉ (resolvedEntry A libs).dependencies ∧
      B.name ∉ (resolvedEntry A libs).clients := by
  rw [← hname]
  constructor
  · rw [show (resolvedEntry A libs).dependencies
        = (update_dependencies A libs).dependencies from rfl,
      update_dependencies_deps]
    intro hmem
    rcases Finset.mem_union.1 hmem with h | h
    · exact hdep h
    · obtain ⟨lib, _, h1, h2, _⟩ := (mem_depEdges _ _).1 h
      exact h2 h1.symm
  · rw [show (resolvedEntry A libs).clients
        = (update_dependencies A libs).clients ∪
          clientEdges (update_dependencies A libs) (init_dependencies libs) from
        update_clients_clients _ _]
    intro hmem
    rcases Finset.mem_union.1 hmem with h | h
    · exact hcl h
    · obtain ⟨lib, _, h1, h2, _⟩ := (mem_clientEdges _ _).1 h
      exact h2 h1.symm

/-- C10 witness: records `libP` and `libQ` share the name `N`; although
`libQ.undefined` meets `libP.defined`, full resolution gives `libQ` neither
a dependency nor a client edge named `N`. -/
theorem same_name_records_no_edges_example :
    libP.name ∉ (resolvedEntry libQ [libP, libQ]).dependencies ∧
      libP.name ∉ (resolvedEntry libQ [libP, libQ]).clients :=
  same_name_records_no_edges [libP, libQ] libQ libP (by decide) (by decide)
    (by decide) (by decide) (by decide) (by decide)

end Objdeps
